import Mathlib

/-!
Verification of the Blackjack client-server system (common.py / server.py).

Shallow embedding conventions:
* A byte buffer is a `List Nat` whose entries are the byte values (each `< 256`
  for buffers produced by the packers).
* A Python `str` used as a name or a decision travels on the wire as its UTF-8
  bytes, so it is modelled directly as its byte list (`List Nat`).
* `struct.pack`/`struct.unpack` with format `!` (big-endian) are modelled by
  `beBytes` / `beVal`.
* A Python list used as a deck pops from its end (`list.pop()`); internally the
  round functions carry the draw pile reversed, so the next card drawn is at
  the head of the `pile` list.
-/

namespace Blackjack

/-- Fixed magic cookie, `MAGIC_COOKIE = 0xabcddcba` in common.py. -/
def MAGIC_COOKIE : Nat := 0xabcddcba

/-- Offer message type tag (common.py `MSG_TYPE_OFFER`). -/
def MSG_TYPE_OFFER : Nat := 0x2

/-- Request message type tag (common.py `MSG_TYPE_REQUEST`). -/
def MSG_TYPE_REQUEST : Nat := 0x3

/-- Payload message type tag (common.py `MSG_TYPE_PAYLOAD`). -/
def MSG_TYPE_PAYLOAD : Nat := 0x4

/-- Round result code: round not over (common.py `RESULT_NOT_OVER`). -/
def RESULT_NOT_OVER : Nat := 0x0

/-- Round result code: tie (common.py `RESULT_TIE`). -/
def RESULT_TIE : Nat := 0x1

/-- Round result code: player loss (common.py `RESULT_LOSS`). -/
def RESULT_LOSS : Nat := 0x2

/-- Round result code: player win (common.py `RESULT_WIN`). -/
def RESULT_WIN : Nat := 0x3

/-- UTF-8 bytes of `ACTION_HIT = "Hittt"` from common.py. -/
def ACTION_HIT : List Nat := [72, 105, 116, 116, 116]

/-- UTF-8 bytes of `ACTION_STAND = "Stand"` from common.py. -/
def ACTION_STAND : List Nat := [83, 116, 97, 110, 100]

/-- Big-endian encoding of `n` on `w` bytes (models `struct.pack` integer
fields; an out-of-range value is reduced modulo `256 ^ w`, theorems always
assume the in-range case in which Python would not raise). -/
def beBytes : Nat → Nat → List Nat
  | 0, _ => []
  | w + 1, n => (n / 256 ^ w) % 256 :: beBytes w n

/-- Big-endian value of a byte list (models `struct.unpack` integer fields). -/
def beVal (bs : List Nat) : Nat :=
  bs.foldl (fun a b => a * 256 + b) 0

/-- `slice data off len` is `data[off : off+len]`. -/
def slice (data : List Nat) (off len : Nat) : List Nat :=
  (data.drop off).take len

/-- Strip trailing zero bytes, modelling `bytes.rstrip(b'\x00')`. -/
def rstripNulls (l : List Nat) : List Nat :=
  (l.reverse.dropWhile (fun b => b == 0)).reverse

/-- ASCII whitespace test used by Python `bytes.strip()`. -/
def isSpace (b : Nat) : Bool :=
  b == 32 || b == 9 || b == 10 || b == 11 || b == 12 || b == 13

/-- Strip ASCII whitespace from both ends, modelling `bytes.strip()`. -/
def bstrip (l : List Nat) : List Nat :=
  ((l.dropWhile isSpace).reverse.dropWhile isSpace).reverse

/-- Right-pad `l` with byte `pad` up to length `k` (models `bytes.ljust`). -/
def padTo (k pad : Nat) (l : List Nat) : List Nat :=
  l ++ List.replicate (k - l.length) pad

/-- common.py `pack_offer`: cookie, type 0x2, 2-byte TCP port, 32-byte
null-padded (truncated) name. -/
def pack_offer (tcp_port : Nat) (server_name : List Nat) : List Nat :=
  beBytes 4 MAGIC_COOKIE ++ [MSG_TYPE_OFFER] ++ beBytes 2 tcp_port ++
    padTo 32 0 (server_name.take 32)

/-- common.py `unpack_offer`: `none` models Python `None`. -/
def unpack_offer (data : List Nat) : Option (Nat × List Nat) :=
  if data.length < 39 then none
  else
    if beVal (slice data 0 4) = MAGIC_COOKIE ∧ beVal (slice data 4 1) = MSG_TYPE_OFFER then
      some (beVal (slice data 5 2), rstripNulls (slice data 7 32))
    else none

/-- common.py `pack_request`: cookie, type 0x3, 1-byte round count, 32-byte
null-padded (truncated) name. -/
def pack_request (num_rounds : Nat) (client_name : List Nat) : List Nat :=
  beBytes 4 MAGIC_COOKIE ++ [MSG_TYPE_REQUEST] ++ beBytes 1 num_rounds ++
    padTo 32 0 (client_name.take 32)

/-- common.py `unpack_request`. -/
def unpack_request (data : List Nat) : Option (Nat × List Nat) :=
  if data.length < 38 then none
  else
    if beVal (slice data 0 4) = MAGIC_COOKIE ∧ beVal (slice data 4 1) = MSG_TYPE_REQUEST then
      some (beVal (slice data 5 1), rstripNulls (slice data 6 32))
    else none

/-- common.py `pack_payload_client`: cookie, type 0x4, 5-byte space-padded
decision. -/
def pack_payload_client (decision : List Nat) : List Nat :=
  beBytes 4 MAGIC_COOKIE ++ [MSG_TYPE_PAYLOAD] ++ padTo 5 32 (decision.take 5)

/-- common.py `pack_payload_server`: cookie, type 0x4, 2-byte rank, 1-byte
suit, 1-byte result. -/
def pack_payload_server (result rank suit : Nat) : List Nat :=
  beBytes 4 MAGIC_COOKIE ++ [MSG_TYPE_PAYLOAD] ++ beBytes 2 rank ++
    beBytes 1 suit ++ beBytes 1 result

/-- common.py `unpack_payload_client` (the decoder the client runs on a
server-to-client payload): returns `(result, rank, suit)`. -/
def unpack_payload_client (data : List Nat) : Option (Nat × Nat × Nat) :=
  if data.length < 9 then none
  else
    if beVal (slice data 0 4) = MAGIC_COOKIE ∧ beVal (slice data 4 1) = MSG_TYPE_PAYLOAD then
      some (beVal (slice data 8 1), beVal (slice data 5 2), beVal (slice data 7 1))
    else none

/-- common.py `unpack_payload_server` (the decoder the server runs on a
client-to-server payload): returns the whitespace-stripped decision bytes. -/
def unpack_payload_server (data : List Nat) : Option (List Nat) :=
  if data.length < 10 then none
  else
    if beVal (slice data 0 4) = MAGIC_COOKIE ∧ beVal (slice data 4 1) = MSG_TYPE_PAYLOAD then
      some (bstrip (slice data 5 5))
    else none

/-- common.py `card_value`: Ace is always 11, face cards are 10. -/
def card_value (rank : Nat) : Nat :=
  if rank = 1 then 11
  else if 11 ≤ rank then 10
  else rank

/-- A playing card as `(rank, suit)`. -/
structure Card where
  rank : Nat
  suit : Nat
deriving DecidableEq, Repr

/-- server.py `BlackjackServer._create_deck`: for each suit 0..3, ranks
1..13 in order. -/
def create_deck : List Card :=
  (List.range 4).flatMap (fun suit => (List.range 13).map (fun r => ⟨r + 1, suit⟩))

/-- Point total of a hand, as server.py computes it:
`sum(card_value(rank) for rank, _ in cards)`. -/
def handSum (cs : List Card) : Nat :=
  (cs.map (fun c => card_value c.rank)).sum

/-- A card of the real deck: rank 1..13, suit 0..3. -/
def ValidCard (c : Card) : Prop :=
  1 ≤ c.rank ∧ c.rank ≤ 13 ∧ c.suit ≤ 3

instance (c : Card) : Decidable (ValidCard c) := by
  unfold ValidCard; infer_instance

/-- One payload sent by `BlackjackServer._send_card`: the card and the
result code it is tagged with. -/
structure SentMsg where
  rank : Nat
  suit : Nat
  result : Nat
deriving DecidableEq, Repr

/-- How `BlackjackServer.play_round` ends in the model.  `noDecision` marks a
run whose modelled input stream ran out mid player turn (a real client would
still be owed a reply); `deckEmpty` and `emptyHand` mark the `IndexError` that
`deck.pop()` / `dealer_cards[-1]` would raise on an empty list. -/
inductive RoundOutcome
  | noDecision
  | invalidDecision
  | unknownDecision
  | playerBust
  | dealerBust
  | compared (result : Nat)
  | deckEmpty
  | emptyHand
deriving DecidableEq, Repr

/-- State carried through the player's hit/stand loop: remaining draw pile
(next card first), player's cards, `player_sum`, and the payloads sent so
far. -/
structure PState where
  pile : List Card
  pcs : List Card
  psum : Nat
  msgs : List SentMsg
deriving DecidableEq, Repr

/-- Result of the player loop: the round ended inside it, or the player
stood. -/
inductive PRes
  | ended (st : PState) (rest : List (Option (List Nat))) (out : RoundOutcome)
  | stood (st : PState) (rest : List (Option (List Nat)))
deriving DecidableEq, Repr

/-- The `while True` player loop of `BlackjackServer.play_round` (server.py
lines 192-223).  Each element of `decisions` is the value
`unpack_payload_server(recv())` produced for one iteration: `none` models a
malformed buffer, `some d` the stripped decision bytes. -/
def playerLoop : List (Option (List Nat)) → PState → PRes
  | [], st => .ended st [] .noDecision
  | none :: ds, st => .ended st ds .invalidDecision
  | some dec :: ds, st =>
    if dec = ACTION_STAND then .stood st ds
    else if dec = ACTION_HIT then
      match st.pile with
      | [] => .ended st ds .deckEmpty
      | c :: pile2 =>
        if 21 < st.psum + card_value c.rank then
          .ended ⟨pile2, st.pcs ++ [c], st.psum + card_value c.rank,
                  st.msgs ++ [⟨c.rank, c.suit, RESULT_LOSS⟩]⟩ ds .playerBust
        else
          playerLoop ds ⟨pile2, st.pcs ++ [c], st.psum + card_value c.rank,
                         st.msgs ++ [⟨c.rank, c.suit, RESULT_NOT_OVER⟩]⟩
    else .ended st ds .unknownDecision

/-- Final state of the dealer phase: remaining pile, dealer's cards,
`dealer_sum`, payloads sent, and how the round ended. -/
structure DOut where
  pile : List Card
  dcs : List Card
  dsum : Nat
  msgs : List SentMsg
  out : RoundOutcome
deriving DecidableEq, Repr

/-- The final result chosen by comparing the totals (server.py lines
253-261): player total higher means Win, dealer total higher means Loss,
equal means Tie. -/
def compareResult (psum dsum : Nat) : Nat :=
  if psum > dsum then RESULT_WIN
  else if dsum > psum then RESULT_LOSS
  else RESULT_TIE

/-- The final comparison of `play_round` (server.py lines 249-265): pick the
result from the totals and resend the dealer's last dealt card
(`dealer_cards[-1]`) tagged with it. -/
def compareTotals (psum : Nat) (pile dcs : List Card) (dsum : Nat)
    (msgs : List SentMsg) : DOut :=
  match dcs.getLast? with
  | some c =>
    ⟨pile, dcs, dsum, msgs ++ [⟨c.rank, c.suit, compareResult psum dsum⟩],
      .compared (compareResult psum dsum)⟩
  | none => ⟨pile, dcs, dsum, msgs, .emptyHand⟩

/-- The `while dealer_sum < 17` loop of `BlackjackServer.play_round`
(server.py lines 234-247) followed by the comparison. -/
def dealerLoop (psum : Nat) : List Card → List Card → Nat → List SentMsg → DOut
  | [], dcs, dsum, msgs =>
    if dsum < 17 then ⟨[], dcs, dsum, msgs, .deckEmpty⟩
    else compareTotals psum [] dcs dsum msgs
  | c :: rest, dcs, dsum, msgs =>
    if dsum < 17 then
      if 21 < dsum + card_value c.rank then
        ⟨rest, dcs ++ [c], dsum + card_value c.rank,
         msgs ++ [⟨c.rank, c.suit, RESULT_WIN⟩], .dealerBust⟩
      else
        dealerLoop psum rest (dcs ++ [c]) (dsum + card_value c.rank)
          (msgs ++ [⟨c.rank, c.suit, RESULT_NOT_OVER⟩])
    else compareTotals psum (c :: rest) dcs dsum msgs

/-- The initial deal of `play_round` (server.py lines 165-186): four pops from
the end of the shuffled deck, in order player 1, player 2, dealer 1 (visible),
dealer 2 (hidden).  `none` models the `IndexError` of popping a deck of fewer
than four cards. -/
def dealInitial (deck : List Card) : Option (Card × Card × Card × Card × List Card) :=
  match deck.reverse with
  | p1 :: p2 :: d1 :: d2 :: pile => some (p1, p2, d1, d2, pile)
  | _ => none

/-- Everything observable about one `play_round` call: payloads sent, how it
ended, both final hands, the remaining pile, and the decisions left unread. -/
structure RoundOut where
  msgs : List SentMsg
  outcome : RoundOutcome
  playerCards : List Card
  dealerCards : List Card
  pile : List Card
  rest : List (Option (List Nat))
deriving DecidableEq, Repr

/-- server.py `BlackjackServer.play_round`, for one round: `deck` is the
shuffled deck in Python list order (pops come from its end), `decisions` the
stream of decoded client decisions. -/
def play_round (deck : List Card) (decisions : List (Option (List Nat))) : RoundOut :=
  match dealInitial deck with
  | none => ⟨[], .deckEmpty, [], [], [], decisions⟩
  | some (p1, p2, d1, d2, pile) =>
    let msgs0 : List SentMsg :=
      [⟨p1.rank, p1.suit, RESULT_NOT_OVER⟩, ⟨p2.rank, p2.suit, RESULT_NOT_OVER⟩,
       ⟨d1.rank, d1.suit, RESULT_NOT_OVER⟩]
    match playerLoop decisions ⟨pile, [p1, p2], handSum [p1, p2], msgs0⟩ with
    | .ended st ds out => ⟨st.msgs, out, st.pcs, [d1, d2], st.pile, ds⟩
    | .stood st ds =>
      let r := dealerLoop st.psum st.pile [d1, d2]
        (handSum [d1, d2]) (st.msgs ++ [⟨d2.rank, d2.suit, RESULT_NOT_OVER⟩])
      ⟨r.msgs, r.out, st.pcs, r.dcs, r.pile, ds⟩

/-- The `for round_num in range(1, num_rounds + 1)` loop of
`BlackjackServer.handle_client` (server.py lines 144-146): one fresh shuffled
deck per round, a single stream of decoded decisions on the connection, and
the loop runs every round whatever the previous round's outcome was. -/
def runRounds : List (List Card) → List (Option (List Nat)) → List RoundOut
  | [], _ => []
  | deck :: decks, decisions =>
    let r := play_round deck decisions
    r :: runRounds decks r.rest

/-! ### Byte-level lemmas about the codec -/

lemma beBytes_length (w n : Nat) : (beBytes w n).length = w := by
  induction w generalizing n with
  | zero => rfl
  | succ w ih => simp [beBytes, ih]

lemma beVal_foldl (w n acc : Nat) :
    List.foldl (fun a b => a * 256 + b) acc (beBytes w n) =
      acc * 256 ^ w + n % 256 ^ w := by
  induction w generalizing acc with
  | zero => simp [beBytes, Nat.mod_one]
  | succ w ih =>
    simp only [beBytes, List.foldl_cons]
    rw [ih]
    have h256 : (256 : Nat) ^ (w + 1) = 256 ^ w * 256 := by ring
    rw [h256, Nat.mod_mul]
    ring

lemma beVal_beBytes (w n : Nat) (h : n < 256 ^ w) : beVal (beBytes w n) = n := by
  unfold beVal
  rw [beVal_foldl]
  simp [Nat.mod_eq_of_lt h]

lemma beVal_singleton (b : Nat) : beVal [b] = b := by
  simp [beVal]

lemma slice_prefix (l1 l2 : List Nat) (n : Nat) (h : l1.length = n) :
    slice (l1 ++ l2) 0 n = l1 := by
  simp [slice, List.take_left' h]

lemma slice_skip (l1 l2 : List Nat) (off off2 len : Nat)
    (h : off = l1.length + off2) :
    slice (l1 ++ l2) off len = slice l2 off2 len := by
  subst h
  simp [slice, List.drop_append]

lemma slice_exact (l : List Nat) (n : Nat) (h : l.length = n) :
    slice l 0 n = l := by
  simp [slice, ← h]

lemma slice_left (l1 l2 : List Nat) (off len : Nat) (h : off + len ≤ l1.length) :
    slice (l1 ++ l2) off len = slice l1 off len := by
  unfold slice
  rw [List.drop_append_of_le_length (by omega),
    List.take_append_of_le_length (by simp; omega)]

lemma padTo_length (k pad : Nat) (l : List Nat) (h : l.length ≤ k) :
    (padTo k pad l).length = k := by
  simp [padTo]
  omega

lemma dropWhile_replicate_append (p : Nat → Bool) (m a : Nat) (l : List Nat)
    (h : p a = true) :
    (List.replicate m a ++ l).dropWhile p = l.dropWhile p := by
  induction m with
  | zero => simp
  | succ m ih => simp [List.replicate_succ, List.dropWhile_cons, h, ih]

lemma rstripNulls_append_zeros (l : List Nat) (m : Nat) :
    rstripNulls (l ++ List.replicate m 0) = rstripNulls l := by
  unfold rstripNulls
  rw [List.reverse_append, List.reverse_replicate,
    dropWhile_replicate_append _ _ _ _ rfl]

lemma rstripNulls_eq_self (l : List Nat) (h : l.getLast? ≠ some 0) :
    rstripNulls l = l := by
  unfold rstripNulls
  cases hr : l.reverse with
  | nil =>
    have : l = [] := by simpa using congrArg List.reverse hr
    simp [this]
  | cons b t =>
    have hb : l.getLast? = some b := by
      rw [← List.head?_reverse, hr]
      rfl
    have hb0 : (b == 0) = false := by
      cases hbe : b == 0 with
      | false => rfl
      | true =>
        have hb0 : b = 0 := by simpa using hbe
        exact absurd (hb.trans (by rw [hb0])) h
    rw [List.dropWhile_cons, hb0]
    simp only [Bool.false_eq_true, if_false]
    calc (b :: t).reverse = l.reverse.reverse := by rw [hr]
    _ = l := List.reverse_reverse l

lemma rstripNulls_padTo (l : List Nat) (k : Nat) :
    rstripNulls (padTo k 0 l) = rstripNulls l := by
  unfold padTo
  exact rstripNulls_append_zeros l _

/-! ### Claim C5: the decoders reject short, wrong-cookie and wrong-type buffers -/

/-- C5: each of the four decode functions is total by construction in this
embedding (it returns `Option`, and the Python code checks the length before
slicing so `struct.error` cannot escape); moreover each returns `none`
whenever the buffer is shorter than that message's fixed length, or the magic
cookie differs from `MAGIC_COOKIE`, or the type tag differs from the expected
value. -/
theorem C5_decoders_reject_malformed (data : List Nat) :
    (data.length < 39 → unpack_offer data = none) ∧
    (beVal (slice data 0 4) ≠ MAGIC_COOKIE → unpack_offer data = none) ∧
    (beVal (slice data 4 1) ≠ MSG_TYPE_OFFER → unpack_offer data = none) ∧
    (data.length < 38 → unpack_request data = none) ∧
    (beVal (slice data 0 4) ≠ MAGIC_COOKIE → unpack_request data = none) ∧
    (beVal (slice data 4 1) ≠ MSG_TYPE_REQUEST → unpack_request data = none) ∧
    (data.length < 10 → unpack_payload_server data = none) ∧
    (beVal (slice data 0 4) ≠ MAGIC_COOKIE → unpack_payload_server data = none) ∧
    (beVal (slice data 4 1) ≠ MSG_TYPE_PAYLOAD → unpack_payload_server data = none) ∧
    (data.length < 9 → unpack_payload_client data = none) ∧
    (beVal (slice data 0 4) ≠ MAGIC_COOKIE → unpack_payload_client data = none) ∧
    (beVal (slice data 4 1) ≠ MSG_TYPE_PAYLOAD → unpack_payload_client data = none) := by
  refine ⟨fun h => ?_, fun h => ?_, fun h => ?_, fun h => ?_, fun h => ?_, fun h => ?_,
    fun h => ?_, fun h => ?_, fun h => ?_, fun h => ?_, fun h => ?_, fun h => ?_⟩ <;>
    simp only [unpack_offer, unpack_request, unpack_payload_server, unpack_payload_client]
  · rw [if_pos h]
  · by_cases hl : data.length < 39
    · rw [if_pos hl]
    · rw [if_neg hl, if_neg (fun hc => h hc.1)]
  · by_cases hl : data.length < 39
    · rw [if_pos hl]
    · rw [if_neg hl, if_neg (fun hc => h hc.2)]
  · rw [if_pos h]
  · by_cases hl : data.length < 38
    · rw [if_pos hl]
    · rw [if_neg hl, if_neg (fun hc => h hc.1)]
  · by_cases hl : data.length < 38
    · rw [if_pos hl]
    · rw [if_neg hl, if_neg (fun hc => h hc.2)]
  · rw [if_pos h]
  · by_cases hl : data.length < 10
    · rw [if_pos hl]
    · rw [if_neg hl, if_neg (fun hc => h hc.1)]
  · by_cases hl : data.length < 10
    · rw [if_pos hl]
    · rw [if_neg hl, if_neg (fun hc => h hc.2)]
  · rw [if_pos h]
  · by_cases hl : data.length < 9
    · rw [if_pos hl]
    · rw [if_neg hl, if_neg (fun hc => h hc.1)]
  · by_cases hl : data.length < 9
    · rw [if_pos hl]
    · rw [if_neg hl, if_neg (fun hc => h hc.2)]

/-- C5 witness: the empty buffer is rejected by all four decoders. -/
theorem C5_decoders_reject_malformed_witness :
    ([] : List Nat).length < 39 ∧ unpack_offer [] = none ∧
      unpack_request [] = none ∧ unpack_payload_server [] = none ∧
      unpack_payload_client [] = none :=
  ⟨by decide, (C5_decoders_reject_malformed []).1 (by decide),
    (C5_decoders_reject_malformed []).2.2.2.1 (by decide),
    (C5_decoders_reject_malformed []).2.2.2.2.2.2.1 (by decide),
    (C5_decoders_reject_malformed []).2.2.2.2.2.2.2.2.2.1 (by decide)⟩

/-! ### Claim C6: Offer round-trip -/

/-- C6 (amended): decoding the encoding of an Offer returns the port and the
name truncated to 32 bytes, provided the truncated name does not end in a
null byte (the decoder strips trailing nulls, so a trailing-null name does
not round-trip; see the counterexample). -/
theorem C6_offer_roundtrip_no_trailing_null (port : Nat) (name : List Nat)
    (hport : port < 65536) (hname : (name.take 32).getLast? ≠ some 0) :
    unpack_offer (pack_offer port name) = some (port, name.take 32) := by
  have hpad : (padTo 32 0 (name.take 32)).length = 32 :=
    padTo_length _ _ _ (by simp [List.length_take])
  have hlen : (pack_offer port name).length = 39 := by
    simp [pack_offer, beBytes_length, hpad]
  have s0 : slice (pack_offer port name) 0 4 = beBytes 4 MAGIC_COOKIE := by
    unfold pack_offer
    rw [slice_left _ _ 0 4 (by simp [beBytes_length]),
      slice_left _ _ 0 4 (by simp [beBytes_length])]
    exact slice_prefix _ _ _ (beBytes_length 4 _)
  have s4 : slice (pack_offer port name) 4 1 = [MSG_TYPE_OFFER] := by
    unfold pack_offer
    rw [slice_left _ _ 4 1 (by simp [beBytes_length]),
      slice_left _ _ 4 1 (by simp [beBytes_length]),
      slice_skip (beBytes 4 MAGIC_COOKIE) _ 4 0 1 (by simp [beBytes_length])]
    exact slice_exact _ _ rfl
  have s5 : slice (pack_offer port name) 5 2 = beBytes 2 port := by
    unfold pack_offer
    rw [slice_left _ _ 5 2 (by simp [beBytes_length]),
      slice_skip (beBytes 4 MAGIC_COOKIE ++ [MSG_TYPE_OFFER]) _ 5 0 2
        (by simp [beBytes_length])]
    exact slice_exact _ _ (beBytes_length 2 _)
  have s7 : slice (pack_offer port name) 7 32 = padTo 32 0 (name.take 32) := by
    unfold pack_offer
    rw [slice_skip (beBytes 4 MAGIC_COOKIE ++ [MSG_TYPE_OFFER] ++ beBytes 2 port) _ 7 0 32
        (by simp [beBytes_length])]
    exact slice_exact _ _ hpad
  unfold unpack_offer
  rw [if_neg (by omega), if_pos ⟨by rw [s0]; exact beVal_beBytes 4 _ (by norm_num [MAGIC_COOKIE]),
    by rw [s4]; exact beVal_singleton _⟩, s5, s7,
    beVal_beBytes 2 _ (by omega), rstripNulls_padTo,
    rstripNulls_eq_self _ hname]

/-- C6 witness: a concrete round-trip through the theorem. -/
theorem C6_offer_roundtrip_no_trailing_null_witness :
    12345 < 65536 ∧ (([84, 101, 115, 116] : List Nat).take 32).getLast? ≠ some 0 ∧
      unpack_offer (pack_offer 12345 [84, 101, 115, 116]) =
        some (12345, ([84, 101, 115, 116] : List Nat).take 32) :=
  ⟨by decide, by decide,
    C6_offer_roundtrip_no_trailing_null 12345 [84, 101, 115, 116] (by decide) (by decide)⟩

/-- C6 counterexample: the claim as stated fails for a valid pair whose name
ends in a null byte — `unpack_offer (pack_offer 12345 [0])` returns the empty
name, not the one-byte name `[0]` truncated to 32 bytes. -/
theorem C6_offer_roundtrip_counterexample :
    unpack_offer (pack_offer 12345 [0]) ≠ some (12345, ([0] : List Nat).take 32) := by
  decide

/-! ### Claim C7: server-to-client Payload round-trip -/

/-- C7: for every rank in 1..13, suit in 0..3 and result code 0..3, decoding
the encoding of a server-to-client Payload returns exactly that
(result, rank, suit) triple. -/
theorem C7_payload_server_roundtrip (result rank suit : Nat)
    (hr1 : 1 ≤ rank) (hr2 : rank ≤ 13) (hs : suit ≤ 3) (hres : result ≤ 3) :
    unpack_payload_client (pack_payload_server result rank suit) =
      some (result, rank, suit) := by
  have hlen : (pack_payload_server result rank suit).length = 9 := by
    simp [pack_payload_server, beBytes_length]
  have s0 : slice (pack_payload_server result rank suit) 0 4 = beBytes 4 MAGIC_COOKIE := by
    unfold pack_payload_server
    rw [slice_left _ _ 0 4 (by simp [beBytes_length]),
      slice_left _ _ 0 4 (by simp [beBytes_length]),
      slice_left _ _ 0 4 (by simp [beBytes_length])]
    exact slice_prefix _ _ _ (beBytes_length 4 _)
  have s4 : slice (pack_payload_server result rank suit) 4 1 = [MSG_TYPE_PAYLOAD] := by
    unfold pack_payload_server
    rw [slice_left _ _ 4 1 (by simp [beBytes_length]),
      slice_left _ _ 4 1 (by simp [beBytes_length]),
      slice_left _ _ 4 1 (by simp [beBytes_length]),
      slice_skip (beBytes 4 MAGIC_COOKIE) _ 4 0 1 (by simp [beBytes_length])]
    exact slice_exact _ _ rfl
  have s5 : slice (pack_payload_server result rank suit) 5 2 = beBytes 2 rank := by
    unfold pack_payload_server
    rw [slice_left _ _ 5 2 (by simp [beBytes_length]),
      slice_left _ _ 5 2 (by simp [beBytes_length]),
      slice_skip (beBytes 4 MAGIC_COOKIE ++ [MSG_TYPE_PAYLOAD]) _ 5 0 2
        (by simp [beBytes_length])]
    exact slice_exact _ _ (beBytes_length 2 _)
  have s7 : slice (pack_payload_server result rank suit) 7 1 = beBytes 1 suit := by
    unfold pack_payload_server
    rw [slice_left _ _ 7 1 (by simp [beBytes_length]),
      slice_skip (beBytes 4 MAGIC_COOKIE ++ [MSG_TYPE_PAYLOAD] ++ beBytes 2 rank) _ 7 0 1
        (by simp [beBytes_length])]
    exact slice_exact _ _ (beBytes_length 1 _)
  have s8 : slice (pack_payload_server result rank suit) 8 1 = beBytes 1 result := by
    unfold pack_payload_server
    rw [slice_skip
        (beBytes 4 MAGIC_COOKIE ++ [MSG_TYPE_PAYLOAD] ++ beBytes 2 rank ++ beBytes 1 suit) _
        8 0 1 (by simp [beBytes_length])]
    exact slice_exact _ _ (beBytes_length 1 _)
  unfold unpack_payload_client
  rw [if_neg (by omega),
    if_pos ⟨by rw [s0]; exact beVal_beBytes 4 _ (by norm_num [MAGIC_COOKIE]),
      by rw [s4]; exact beVal_singleton _⟩,
    s5, s7, s8, beVal_beBytes 2 _ (by omega), beVal_beBytes 1 _ (by omega),
    beVal_beBytes 1 _ (by omega)]

/-- C7 witness: King of Clubs with result Win, the vector from
test_blackjack.py. -/
theorem C7_payload_server_roundtrip_witness :
    1 ≤ 13 ∧ (13 : Nat) ≤ 13 ∧ (2 : Nat) ≤ 3 ∧ RESULT_WIN ≤ 3 ∧
      unpack_payload_client (pack_payload_server RESULT_WIN 13 2) =
        some (RESULT_WIN, 13, 2) :=
  ⟨by decide, by decide, by decide, by decide,
    C7_payload_server_roundtrip RESULT_WIN 13 2 (by decide) (by decide)
      (by decide) (by decide)⟩

/-! ### Claim C8: card values -/

/-- C8: `card_value` sends rank 1 (Ace) to 11 unconditionally, ranks 11, 12
and 13 to 10, and every rank in 2..10 to itself. -/
theorem C8_card_value_table (rank : Nat) :
    (rank = 1 → card_value rank = 11) ∧
    (11 ≤ rank → rank ≤ 13 → card_value rank = 10) ∧
    (2 ≤ rank → rank ≤ 10 → card_value rank = rank) := by
  refine ⟨fun h => ?_, fun h1 h2 => ?_, fun h1 h2 => ?_⟩ <;> unfold card_value
  · rw [if_pos h]
  · rw [if_neg (by omega), if_pos h1]
  · rw [if_neg (by omega), if_neg (by omega)]

/-- C8 witness: the three cases at ranks 1, 13 and 7. -/
theorem C8_card_value_table_witness :
    card_value 1 = 11 ∧ card_value 13 = 10 ∧ card_value 7 = 7 :=
  ⟨(C8_card_value_table 1).1 rfl,
    (C8_card_value_table 13).2.1 (by decide) (by decide),
    (C8_card_value_table 7).2.2 (by decide) (by decide)⟩

/-! ### Claim C9: deck invariant -/

lemma mem_create_deck (c : Card) :
    c ∈ create_deck ↔ (1 ≤ c.rank ∧ c.rank ≤ 13 ∧ c.suit ≤ 3) := by
  obtain ⟨r, s⟩ := c
  simp only [create_deck, List.mem_flatMap, List.mem_map, List.mem_range]
  constructor
  · rintro ⟨s2, hs2, r2, hr2, heq⟩
    obtain ⟨h1, h2⟩ := Card.mk.inj heq
    simp only [← h1, ← h2]
    omega
  · rintro ⟨h1, h2, h3⟩
    exact ⟨s, by omega, r - 1, by omega, by simp [Card.mk.injEq]; omega⟩

/-- C9: the fresh deck has exactly 52 cards, no duplicates, its members are
exactly the (rank, suit) pairs with rank in 1..13 and suit in 0..3, and every
shuffle outcome (any permutation of the deck, which is all `random.shuffle`
can produce) leaves the multiset of cards unchanged. -/
theorem C9_deck_invariant :
    create_deck.length = 52 ∧ create_deck.Nodup ∧
      (∀ c : Card, c ∈ create_deck ↔ (1 ≤ c.rank ∧ c.rank ≤ 13 ∧ c.suit ≤ 3)) ∧
      (∀ deck : List Card, deck.Perm create_deck →
        (deck : Multiset Card) = (create_deck : Multiset Card)) :=
  ⟨by decide, by decide, mem_create_deck,
    fun _ h => Multiset.coe_eq_coe.mpr h⟩

/-- C9 witness: the identity shuffle and the Ace of Hearts membership. -/
theorem C9_deck_invariant_witness :
    create_deck.Perm create_deck ∧
      (create_deck : Multiset Card) = (create_deck : Multiset Card) ∧
      ((⟨1, 0⟩ : Card) ∈ create_deck ↔
        (1 ≤ (1 : Nat) ∧ (1 : Nat) ≤ 13 ∧ (0 : Nat) ≤ 3)) :=
  ⟨List.Perm.refl _,
    C9_deck_invariant.2.2.2 create_deck (List.Perm.refl _),
    C9_deck_invariant.2.2.1 ⟨1, 0⟩⟩

/-! ### Lemmas about the round state machine -/

lemma card_value_bounds (c : Card) (h : ValidCard c) :
    2 ≤ card_value c.rank ∧ card_value c.rank ≤ 11 := by
  obtain ⟨h1, h2, _⟩ := h
  unfold card_value
  split
  · omega
  · split <;> omega

lemma handSum_concat (cs : List Card) (c : Card) :
    handSum (cs ++ [c]) = handSum cs + card_value c.rank := by
  simp [handSum]

lemma handSum_pair (a b : Card) :
    handSum [a, b] = card_value a.rank + card_value b.rank := by
  simp [handSum]

/-- If the player loop ends in a bust, the busting card was appended to the
player's hand, sent as the last payload tagged `RESULT_LOSS`, and the
recomputed player total exceeds 21. -/
lemma playerLoop_bust (ds : List (Option (List Nat))) :
    ∀ (st st' : PState) (rest : List (Option (List Nat))),
      st.psum = handSum st.pcs →
      playerLoop ds st = .ended st' rest .playerBust →
      21 < st'.psum ∧ st'.psum = handSum st'.pcs ∧
        ∃ c, st'.pcs.getLast? = some c ∧
          st'.msgs.getLast? = some ⟨c.rank, c.suit, RESULT_LOSS⟩ := by
  induction ds with
  | nil =>
    intro st st' rest hsum h
    simp [playerLoop] at h
  | cons d ds ih =>
    intro st st' rest hsum h
    obtain ⟨pile, pcs, psum, msgs⟩ := st
    cases d with
    | none => simp [playerLoop] at h
    | some dec =>
      simp only [playerLoop] at h
      by_cases h1 : dec = ACTION_STAND
      · rw [if_pos h1] at h
        simp at h
      · rw [if_neg h1] at h
        by_cases h2 : dec = ACTION_HIT
        · rw [if_pos h2] at h
          cases hp : pile with
          | nil =>
            rw [hp] at h
            simp at h
          | cons c pile2 =>
            rw [hp] at h
            simp only at h
            by_cases hb : 21 < psum + card_value c.rank
            · rw [if_pos hb] at h
              obtain ⟨hst, -, -⟩ := PRes.ended.inj h
              subst hst
              refine ⟨hb, ?_, c, List.getLast?_concat _, List.getLast?_concat _⟩
              simp only [handSum_concat]
              simp only at hsum
              omega
            · rw [if_neg hb] at h
              have := ih _ _ _ ?_ h
              · exact this
              · simp only [handSum_concat]
                simp only at hsum
                omega
        · rw [if_neg h2] at h
          simp at h

lemma compareTotals_out_ne_playerBust (psum : Nat) (pile dcs : List Card)
    (dsum : Nat) (msgs : List SentMsg) :
    (compareTotals psum pile dcs dsum msgs).out ≠ .playerBust := by
  unfold compareTotals
  cases dcs.getLast? <;> simp

lemma dealerLoop_out_ne_playerBust (pile : List Card) :
    ∀ (dcs : List Card) (psum dsum : Nat) (msgs : List SentMsg),
      (dealerLoop psum pile dcs dsum msgs).out ≠ .playerBust := by
  induction pile with
  | nil =>
    intro dcs psum dsum msgs
    simp only [dealerLoop]
    split
    · simp
    · exact compareTotals_out_ne_playerBust _ _ _ _ _
  | cons c rest ih =>
    intro dcs psum dsum msgs
    simp only [dealerLoop]
    split
    · split
      · simp
      · exact ih _ _ _ _
    · exact compareTotals_out_ne_playerBust _ _ _ _ _

/-! ### Claim C3: what an unrecognized decision actually does -/

/-- C3 (amended): a decision that is neither Hit nor Stand makes the player
loop end the round at once with no further payload in that round
(`play_round` returns), but it does not end the session: the round loop of
`handle_client` runs `play_round` once per requested round unconditionally,
so every requested round is still started on the same connection. -/
theorem C3_unknown_decision_aborts_round_only (decks : List (List Card))
    (decs ds : List (Option (List Nat))) (st : PState) (dec : List Nat)
    (h1 : dec ≠ ACTION_STAND) (h2 : dec ≠ ACTION_HIT) :
    playerLoop (some dec :: ds) st = .ended st ds .unknownDecision ∧
      (runRounds decks decs).length = decks.length := by
  constructor
  · simp only [playerLoop]
    rw [if_neg h1, if_neg h2]
  · induction decks generalizing decs with
    | nil => rfl
    | cons d rest2 ih => simp only [runRounds, List.length_cons, ih]

/-- C3 witness: the loop body and the session loop at concrete inputs. -/
theorem C3_unknown_decision_aborts_round_only_witness :
    ([88] : List Nat) ≠ ACTION_STAND ∧ ([88] : List Nat) ≠ ACTION_HIT ∧
      (playerLoop [some [88]] ⟨[], [], 0, []⟩ =
          .ended ⟨[], [], 0, []⟩ [] .unknownDecision ∧
        (runRounds [] []).length = ([] : List (List Card)).length) :=
  ⟨by decide, by decide,
    C3_unknown_decision_aborts_round_only [] [] [] ⟨[], [], 0, []⟩ [88]
      (by decide) (by decide)⟩

/-- C3 counterexample: with two requested rounds and an unrecognized decision
("XXXXX") in round one, round one aborts with `unknownDecision` after its
three deal payloads — yet the server still plays round two, sending its three
deal payloads on the same connection.  The session is not terminated by the
protocol error, contradicting the claim that no further rounds are played. -/
theorem C3_session_continues_counterexample :
    (runRounds [create_deck, create_deck] [some [88, 88, 88, 88, 88]]).map
        (fun r => (r.outcome, r.msgs.length)) =
      [(.unknownDecision, 3), (.noDecision, 3)] := by
  decide

/-! ### Claim C4: the initial deal -/

/-- C4 (amended): for any deck of at least four cards, the initial deal pops
two cards into the player's hand and two cards into the dealer's hand (the
second dealer card stays hidden), so four cards leave the deck; exactly three
payloads are sent before the player turn — player card 1, player card 2, the
dealer's visible card, in that order — each tagged `RESULT_NOT_OVER`. -/
theorem C4_deal_initial_draws_and_messages (deck : List Card)
    (h : 4 ≤ deck.length) :
    ∃ p1 p2 d1 d2 pile, dealInitial deck = some (p1, p2, d1, d2, pile) ∧
      pile.length = deck.length - 4 ∧
      (play_round deck []).playerCards = [p1, p2] ∧
      (play_round deck []).dealerCards = [d1, d2] ∧
      (play_round deck []).msgs =
        [⟨p1.rank, p1.suit, RESULT_NOT_OVER⟩, ⟨p2.rank, p2.suit, RESULT_NOT_OVER⟩,
         ⟨d1.rank, d1.suit, RESULT_NOT_OVER⟩] := by
  have hlen : deck.reverse.length = deck.length := by simp
  rcases hr : deck.reverse with - | ⟨p1, - | ⟨p2, - | ⟨d1, - | ⟨d2, pile⟩⟩⟩⟩
  · rw [hr] at hlen; simp at hlen; omega
  · rw [hr] at hlen; simp at hlen; omega
  · rw [hr] at hlen; simp at hlen; omega
  · rw [hr] at hlen; simp at hlen; omega
  · have hdi : dealInitial deck = some (p1, p2, d1, d2, pile) := by
      unfold dealInitial
      rw [hr]
    have hp : pile.length = deck.length - 4 := by
      rw [hr] at hlen
      simp at hlen
      omega
    refine ⟨p1, p2, d1, d2, pile, hdi, hp, ?_, ?_, ?_⟩ <;>
      simp [play_round, hdi, playerLoop]

/-- C4 witness: the fresh deck. -/
theorem C4_deal_initial_draws_and_messages_witness :
    4 ≤ create_deck.length ∧
      ∃ p1 p2 d1 d2 pile, dealInitial create_deck = some (p1, p2, d1, d2, pile) ∧
        pile.length = create_deck.length - 4 ∧
        (play_round create_deck []).playerCards = [p1, p2] ∧
        (play_round create_deck []).dealerCards = [d1, d2] ∧
        (play_round create_deck []).msgs =
          [⟨p1.rank, p1.suit, RESULT_NOT_OVER⟩, ⟨p2.rank, p2.suit, RESULT_NOT_OVER⟩,
           ⟨d1.rank, d1.suit, RESULT_NOT_OVER⟩] :=
  ⟨by decide, C4_deal_initial_draws_and_messages create_deck (by decide)⟩

/-- C4 counterexample: on the fresh deck the dealer's hand right after the
initial deal holds two cards, not exactly one as the claim states (the second
is the hidden card revealed only when the dealer plays). -/
theorem C4_dealer_hand_counterexample :
    (play_round create_deck []).dealerCards.length = 2 ∧
      ¬ (play_round create_deck []).dealerCards.length = 1 := by
  decide

/-! ### Claim C1: a player bust ends the round at once, dealer never plays -/

/-- C1: whenever `play_round` ends with a player bust (which happens exactly
when a Hit draws a card pushing the recomputed player total over 21), the
drawn card is the last card of the player's hand, the very last payload of
the round carries that card tagged `RESULT_LOSS` (so nothing — in particular
no dealer message — follows it), the dealer's hand still holds only the two
initially dealt cards (the dealer drew no card), and the player total indeed
exceeds 21. -/
theorem C1_player_bust_ends_round (deck : List Card)
    (decisions : List (Option (List Nat)))
    (hb : (play_round deck decisions).outcome = .playerBust) :
    ∃ c, (play_round deck decisions).playerCards.getLast? = some c ∧
      (play_round deck decisions).msgs.getLast? = some ⟨c.rank, c.suit, RESULT_LOSS⟩ ∧
      (play_round deck decisions).dealerCards.length = 2 ∧
      21 < handSum (play_round deck decisions).playerCards := by
  cases hdi : dealInitial deck with
  | none => rw [play_round, hdi] at hb ⊢; simp at hb
  | some v =>
    obtain ⟨p1, p2, d1, d2, pile⟩ := v
    rw [play_round, hdi] at hb ⊢
    simp only at hb ⊢
    cases hpl : playerLoop decisions
        ⟨pile, [p1, p2], handSum [p1, p2],
          [⟨p1.rank, p1.suit, RESULT_NOT_OVER⟩, ⟨p2.rank, p2.suit, RESULT_NOT_OVER⟩,
           ⟨d1.rank, d1.suit, RESULT_NOT_OVER⟩]⟩ with
    | ended st' rest out =>
      rw [hpl] at hb
      have hb2 : out = RoundOutcome.playerBust := hb
      subst hb2
      obtain ⟨h21, hsum, c, hc1, hc2⟩ := playerLoop_bust decisions _ _ _ rfl hpl
      show ∃ c, st'.pcs.getLast? = some c ∧
        st'.msgs.getLast? = some ⟨c.rank, c.suit, RESULT_LOSS⟩ ∧
        ([d1, d2] : List Card).length = 2 ∧ 21 < handSum st'.pcs
      exact ⟨c, hc1, hc2, rfl, by omega⟩
    | stood st' rest =>
      rw [hpl] at hb
      have hb2 : (dealerLoop st'.psum st'.pile [d1, d2] (handSum [d1, d2])
          (st'.msgs ++ [⟨d2.rank, d2.suit, RESULT_NOT_OVER⟩])).out =
            RoundOutcome.playerBust := hb
      exact absurd hb2 (dealerLoop_out_ne_playerBust _ _ _ _ _)

/-! ### Claim C2: the dealer's hit-to-17 loop and the final comparison -/

lemma compareResult_cases (psum dsum : Nat) :
    (psum > dsum → compareResult psum dsum = RESULT_WIN) ∧
    (dsum > psum → compareResult psum dsum = RESULT_LOSS) ∧
    (psum = dsum → compareResult psum dsum = RESULT_TIE) := by
  unfold compareResult
  refine ⟨fun h => if_pos h, fun h => ?_, fun h => ?_⟩
  · rw [if_neg (by omega), if_pos h]
  · rw [if_neg (by omega), if_neg (by omega)]

lemma compareTotals_spec (psum : Nat) (pile dcs : List Card) (dsum : Nat)
    (msgs : List SentMsg) (r : DOut)
    (hr : compareTotals psum pile dcs dsum msgs = r) :
    r.dsum = dsum ∧ r.dcs = dcs ∧ (r.out ≠ .dealerBust) ∧
      ∀ res, r.out = .compared res →
        res = compareResult psum dsum ∧
          ∃ c, r.dcs.getLast? = some c ∧
            r.msgs.getLast? = some ⟨c.rank, c.suit, res⟩ := by
  unfold compareTotals at hr
  cases hg : dcs.getLast? with
  | none =>
    rw [hg] at hr
    subst hr
    exact ⟨rfl, rfl, by simp, fun res h => by simp at h⟩
  | some c =>
    rw [hg] at hr
    subst hr
    refine ⟨rfl, rfl, by simp, fun res h => ?_⟩
    have hres : compareResult psum dsum = res := by
      simpa using h
    subst hres
    exact ⟨rfl, c, hg, List.getLast?_concat _⟩

/-- C2: in the dealer phase, assuming the running dealer total equals the
dealer hand's point sum, (a) if the phase ends in a dealer bust then the
final recomputed total exceeds 21 and the last payload carries the card just
drawn (the last card of the dealer's hand) tagged `RESULT_WIN`; (b) if the
phase ends in a comparison then the dealer total has reached at least 17,
the result is Win / Loss / Tie according to whether the player total is
greater than / less than / equal to the dealer total, and it is sent in a
payload carrying the dealer's last dealt card; (c) the dealer's hand only
ever grows by the drawn cards, and the final total is always the recomputed
point sum of the final hand. -/
theorem C2_dealer_turn (pile : List Card) :
    ∀ (dcs : List Card) (psum dsum : Nat) (msgs : List SentMsg) (r : DOut),
      dealerLoop psum pile dcs dsum msgs = r →
      dsum = handSum dcs →
      ((r.out = .dealerBust →
        21 < r.dsum ∧ r.dsum = handSum r.dcs ∧
          ∃ c, r.dcs.getLast? = some c ∧
            r.msgs.getLast? = some ⟨c.rank, c.suit, RESULT_WIN⟩) ∧
      (∀ res, r.out = .compared res →
        17 ≤ r.dsum ∧ r.dsum = handSum r.dcs ∧
          (psum > r.dsum → res = RESULT_WIN) ∧
          (r.dsum > psum → res = RESULT_LOSS) ∧
          (psum = r.dsum → res = RESULT_TIE) ∧
          ∃ c, r.dcs.getLast? = some c ∧
            r.msgs.getLast? = some ⟨c.rank, c.suit, res⟩) ∧
      (∃ ext, r.dcs = dcs ++ ext)) := by
  induction pile with
  | nil =>
    intro dcs psum dsum msgs r hr hsum
    simp only [dealerLoop] at hr
    by_cases h17 : dsum < 17
    · rw [if_pos h17] at hr
      subst hr
      exact ⟨fun h => by simp at h, fun res h => by simp at h, [], by simp⟩
    · rw [if_neg h17] at hr
      obtain ⟨hd, hc, hnb, hcomp⟩ := compareTotals_spec _ _ _ _ _ _ hr
      refine ⟨fun h => absurd h hnb, fun res h => ?_, [], by simp [hc]⟩
      obtain ⟨hres, c, hc1, hc2⟩ := hcomp res h
      obtain ⟨hw, hl, ht⟩ := compareResult_cases psum dsum
      rw [hd, hc]
      refine ⟨by omega, by rw [hsum], ?_, ?_, ?_, c, by rw [← hc]; exact hc1, hc2⟩
      · intro hgt; rw [hres]; exact hw (by omega)
      · intro hgt; rw [hres]; exact hl (by omega)
      · intro heq; rw [hres]; exact ht (by omega)
  | cons c rest ih =>
    intro dcs psum dsum msgs r hr hsum
    simp only [dealerLoop] at hr
    by_cases h17 : dsum < 17
    · rw [if_pos h17] at hr
      by_cases hbust : 21 < dsum + card_value c.rank
      · rw [if_pos hbust] at hr
        subst hr
        refine ⟨fun _ => ⟨hbust, ?_, c, List.getLast?_concat _, List.getLast?_concat _⟩,
          fun res h => by simp at h, [c], rfl⟩
        simp only [handSum_concat]
        omega
      · rw [if_neg hbust] at hr
        obtain ⟨hbustc, hcomp, ext, hext⟩ :=
          ih (dcs ++ [c]) psum (dsum + card_value c.rank) _ r hr
            (by simp only [handSum_concat]; omega)
        exact ⟨hbustc, hcomp, c :: ext, by simpa [List.append_assoc] using hext⟩
    · rw [if_neg h17] at hr
      obtain ⟨hd, hc, hnb, hcomp⟩ := compareTotals_spec _ _ _ _ _ _ hr
      refine ⟨fun h => absurd h hnb, fun res h => ?_, [], by simp [hc]⟩
      obtain ⟨hres, c2, hc1, hc2⟩ := hcomp res h
      obtain ⟨hw, hl, ht⟩ := compareResult_cases psum dsum
      rw [hd, hc]
      refine ⟨by omega, by rw [hsum], ?_, ?_, ?_, c2, by rw [← hc]; exact hc1, hc2⟩
      · intro hgt; rw [hres]; exact hw (by omega)
      · intro hgt; rw [hres]; exact hl (by omega)
      · intro heq; rw [hres]; exact ht (by omega)

/-- C2 witness: player 20 versus dealer 20 is a Tie carried on the dealer's
last dealt card. -/
theorem C2_dealer_turn_witness :
    (20 : Nat) = handSum [(⟨10, 0⟩ : Card), ⟨10, 1⟩] ∧
      ∃ c, (dealerLoop 20 [] [(⟨10, 0⟩ : Card), ⟨10, 1⟩] 20 []).dcs.getLast? = some c ∧
        (dealerLoop 20 [] [(⟨10, 0⟩ : Card), ⟨10, 1⟩] 20 []).msgs.getLast? =
          some ⟨c.rank, c.suit, RESULT_TIE⟩ :=
  ⟨by decide,
    (((C2_dealer_turn [] [(⟨10, 0⟩ : Card), ⟨10, 1⟩] 20 20 []
        (dealerLoop 20 [] [(⟨10, 0⟩ : Card), ⟨10, 1⟩] 20 []) rfl
        (by decide)).2.1 RESULT_TIE (by decide)).2.2.2.2.2)⟩

/-- C1 witness: player at 20 hits a 10 and busts at 30. -/
theorem C1_player_bust_ends_round_witness :
    (play_round [⟨10, 2⟩, ⟨5, 0⟩, ⟨5, 1⟩, ⟨10, 1⟩, ⟨10, 0⟩]
      [some ACTION_HIT]).outcome = .playerBust ∧
    ∃ c, (play_round [⟨10, 2⟩, ⟨5, 0⟩, ⟨5, 1⟩, ⟨10, 1⟩, ⟨10, 0⟩]
        [some ACTION_HIT]).playerCards.getLast? = some c ∧
      (play_round [⟨10, 2⟩, ⟨5, 0⟩, ⟨5, 1⟩, ⟨10, 1⟩, ⟨10, 0⟩]
        [some ACTION_HIT]).msgs.getLast? = some ⟨c.rank, c.suit, RESULT_LOSS⟩ ∧
      (play_round [⟨10, 2⟩, ⟨5, 0⟩, ⟨5, 1⟩, ⟨10, 1⟩, ⟨10, 0⟩]
        [some ACTION_HIT]).dealerCards.length = 2 ∧
      21 < handSum (play_round [⟨10, 2⟩, ⟨5, 0⟩, ⟨5, 1⟩, ⟨10, 1⟩, ⟨10, 0⟩]
        [some ACTION_HIT]).playerCards :=
  ⟨by decide,
    C1_player_bust_ends_round [⟨10, 2⟩, ⟨5, 0⟩, ⟨5, 1⟩, ⟨10, 1⟩, ⟨10, 0⟩]
      [some ACTION_HIT] (by decide)⟩

/-! ### Claim C10: the deck is never exhausted mid-round -/

/-- Player-loop safety invariant: while the hand's point total bounds the
hand size from below (every card is worth at least 2) and the pile and hand
together hold the 50 cards left after the initial deal, a hit always finds a
non-empty pile; the invariant is preserved to the stand exit. -/
lemma playerLoop_safe (ds : List (Option (List Nat))) :
    ∀ (pile pcs : List Card) (psum : Nat) (msgs : List SentMsg),
      (∀ c ∈ pile, ValidCard c) → 2 * pcs.length ≤ psum → psum ≤ 22 →
      pile.length + pcs.length = 50 →
      ((∀ st' rest out, playerLoop ds ⟨pile, pcs, psum, msgs⟩ = .ended st' rest out →
        out ≠ .deckEmpty) ∧
      (∀ st' rest, playerLoop ds ⟨pile, pcs, psum, msgs⟩ = .stood st' rest →
        (∀ c ∈ st'.pile, ValidCard c) ∧ 2 * st'.pcs.length ≤ st'.psum ∧
          st'.psum ≤ 22 ∧ st'.pile.length + st'.pcs.length = 50)) := by
  induction ds with
  | nil =>
    intro pile pcs psum msgs hv h2 h22 h50
    constructor
    · intro st' rest out h
      simp only [playerLoop] at h
      obtain ⟨-, -, ho⟩ := PRes.ended.inj h
      rw [← ho]
      simp
    · intro st' rest h
      simp [playerLoop] at h
  | cons d ds ih =>
    intro pile pcs psum msgs hv h2 h22 h50
    cases d with
    | none =>
      constructor
      · intro st' rest out h
        simp only [playerLoop] at h
        obtain ⟨-, -, ho⟩ := PRes.ended.inj h
        rw [← ho]
        simp
      · intro st' rest h
        simp [playerLoop] at h
    | some dec =>
      by_cases h1 : dec = ACTION_STAND
      · constructor
        · intro st' rest out h
          simp only [playerLoop] at h
          rw [if_pos h1] at h
          simp at h
        · intro st' rest h
          simp only [playerLoop] at h
          rw [if_pos h1] at h
          obtain ⟨hst, -⟩ := PRes.stood.inj h
          rw [← hst]
          exact ⟨hv, h2, h22, h50⟩
      · by_cases hhit : dec = ACTION_HIT
        · cases hp : pile with
          | nil =>
            subst hp
            exfalso
            simp at h50
            omega
          | cons c pile2 =>
            subst hp
            have hvc : ValidCard c := hv c (by simp)
            obtain ⟨hc2, hc11⟩ := card_value_bounds c hvc
            have hlen : pile2.length + (pcs ++ [c]).length = 50 := by
              simp at h50 ⊢
              omega
            by_cases hbust : 21 < psum + card_value c.rank
            · constructor
              · intro st' rest out h
                simp only [playerLoop] at h
                rw [if_neg h1, if_pos hhit] at h
                simp only [if_pos hbust] at h
                obtain ⟨-, -, ho⟩ := PRes.ended.inj h
                rw [← ho]
                simp
              · intro st' rest h
                simp only [playerLoop] at h
                rw [if_neg h1, if_pos hhit] at h
                simp only [if_pos hbust] at h
                simp at h
            · have ihs := ih pile2 (pcs ++ [c]) (psum + card_value c.rank)
                (msgs ++ [⟨c.rank, c.suit, RESULT_NOT_OVER⟩])
                (fun c2 hc2m => hv c2 (by simp [hc2m]))
                (by simp; omega) (by omega) hlen
              constructor
              · intro st' rest out h
                simp only [playerLoop] at h
                rw [if_neg h1, if_pos hhit] at h
                simp only [if_neg hbust] at h
                exact ihs.1 st' rest out h
              · intro st' rest h
                simp only [playerLoop] at h
                rw [if_neg h1, if_pos hhit] at h
                simp only [if_neg hbust] at h
                exact ihs.2 st' rest h
        · constructor
          · intro st' rest out h
            simp only [playerLoop] at h
            rw [if_neg h1, if_neg hhit] at h
            obtain ⟨-, -, ho⟩ := PRes.ended.inj h
            rw [← ho]
            simp
          · intro st' rest h
            simp only [playerLoop] at h
            rw [if_neg h1, if_neg hhit] at h
            simp at h

lemma compareTotals_out_ne_deckEmpty (psum : Nat) (pile dcs : List Card)
    (dsum : Nat) (msgs : List SentMsg) :
    (compareTotals psum pile dcs dsum msgs).out ≠ .deckEmpty := by
  unfold compareTotals
  cases dcs.getLast? <;> simp

/-- Dealer-loop safety invariant: the dealer only draws while its total is
below 17, and since every card is worth at least 2 its hand can never need
more cards than the pile holds. -/
lemma dealerLoop_safe (pile : List Card) :
    ∀ (dcs : List Card) (psum dsum : Nat) (msgs : List SentMsg),
      (∀ c ∈ pile, ValidCard c) → 2 * dcs.length ≤ dsum →
      9 ≤ pile.length + dcs.length →
      (dealerLoop psum pile dcs dsum msgs).out ≠ .deckEmpty := by
  induction pile with
  | nil =>
    intro dcs psum dsum msgs hv h2 h9
    simp only [dealerLoop]
    by_cases h17 : dsum < 17
    · exfalso
      simp at h9
      omega
    · rw [if_neg h17]
      exact compareTotals_out_ne_deckEmpty _ _ _ _ _
  | cons c rest ih =>
    intro dcs psum dsum msgs hv h2 h9
    simp only [dealerLoop]
    by_cases h17 : dsum < 17
    · rw [if_pos h17]
      have hvc : ValidCard c := hv c (by simp)
      obtain ⟨hc2, hc11⟩ := card_value_bounds c hvc
      by_cases hbust : 21 < dsum + card_value c.rank
      · rw [if_pos hbust]
        simp
      · rw [if_neg hbust]
        exact ih (dcs ++ [c]) psum (dsum + card_value c.rank) _
          (fun c2 hm => hv c2 (by simp [hm]))
          (by simp; omega) (by simp at h9 ⊢; omega)
    · rw [if_neg h17]
      exact compareTotals_out_ne_deckEmpty _ _ _ _ _

/-- C10: starting any round from a shuffled fresh deck (any permutation of
the 52-card deck), no `deck.pop()` in `play_round` ever runs on an empty
deck, whatever decision stream the client sends: the player hits only from a
total of at most 22, the dealer draws only below 17, and every card is worth
at least 2 points, so the two hands can never drain 52 cards. -/
theorem C10_deck_never_exhausted (deck : List Card)
    (decisions : List (Option (List Nat))) (hperm : deck.Perm create_deck) :
    (play_round deck decisions).outcome ≠ .deckEmpty := by
  have hlen52 : deck.length = 52 := by
    rw [hperm.length_eq]
    decide
  have hvdeck : ∀ c ∈ deck, ValidCard c := fun c hc =>
    (mem_create_deck c).mp (hperm.mem_iff.mp hc)
  have hlenr : deck.reverse.length = 52 := by simp [hlen52]
  have hvrev : ∀ c ∈ deck.reverse, ValidCard c := fun c hc =>
    hvdeck c (List.mem_reverse.mp hc)
  rcases hr : deck.reverse with - | ⟨p1, - | ⟨p2, - | ⟨d1, - | ⟨d2, pile⟩⟩⟩⟩
  · rw [hr] at hlenr; simp at hlenr
  · rw [hr] at hlenr; simp at hlenr
  · rw [hr] at hlenr; simp at hlenr
  · rw [hr] at hlenr; simp at hlenr
  · rw [hr] at hvrev hlenr
    have hvp1 : ValidCard p1 := hvrev p1 (by simp)
    have hvp2 : ValidCard p2 := hvrev p2 (by simp)
    have hvd1 : ValidCard d1 := hvrev d1 (by simp)
    have hvd2 : ValidCard d2 := hvrev d2 (by simp)
    have hvpile : ∀ c ∈ pile, ValidCard c := fun c hc => hvrev c (by simp [hc])
    have hpl : pile.length = 48 := by
      simp at hlenr
      omega
    have hdi : dealInitial deck = some (p1, p2, d1, d2, pile) := by
      unfold dealInitial
      rw [hr]
    obtain ⟨hp1lo, hp1hi⟩ := card_value_bounds p1 hvp1
    obtain ⟨hp2lo, hp2hi⟩ := card_value_bounds p2 hvp2
    obtain ⟨hd1lo, hd1hi⟩ := card_value_bounds d1 hvd1
    obtain ⟨hd2lo, hd2hi⟩ := card_value_bounds d2 hvd2
    have hps : handSum [p1, p2] ≤ 22 := by
      rw [handSum_pair]
      omega
    have hsafe := playerLoop_safe decisions pile [p1, p2] (handSum [p1, p2])
      [⟨p1.rank, p1.suit, RESULT_NOT_OVER⟩, ⟨p2.rank, p2.suit, RESULT_NOT_OVER⟩,
       ⟨d1.rank, d1.suit, RESULT_NOT_OVER⟩]
      hvpile (by rw [handSum_pair]; simp; omega) hps (by simp [hpl])
    rw [play_round, hdi]
    simp only
    cases hplr : playerLoop decisions
        ⟨pile, [p1, p2], handSum [p1, p2],
          [⟨p1.rank, p1.suit, RESULT_NOT_OVER⟩, ⟨p2.rank, p2.suit, RESULT_NOT_OVER⟩,
           ⟨d1.rank, d1.suit, RESULT_NOT_OVER⟩]⟩ with
    | ended st' rest out =>
      exact hsafe.1 st' rest out hplr
    | stood st' rest =>
      obtain ⟨hv', h2', h22', h50'⟩ := hsafe.2 st' rest hplr
      have h9 : 9 ≤ st'.pile.length + ([d1, d2] : List Card).length := by
        simp
        omega
      exact dealerLoop_safe st'.pile [d1, d2] st'.psum (handSum [d1, d2])
        (st'.msgs ++ [⟨d2.rank, d2.suit, RESULT_NOT_OVER⟩])
        hv' (by rw [handSum_pair]; simp; omega) h9

/-- C10 witness: the unshuffled fresh deck with no decisions. -/
theorem C10_deck_never_exhausted_witness :
    create_deck.Perm create_deck ∧
      (play_round create_deck []).outcome ≠ .deckEmpty :=
  ⟨List.Perm.refl _,
    C10_deck_never_exhausted create_deck [] (List.Perm.refl _)⟩

end Blackjack
